import Mathlib

/-!
Shallow embedding of the BabyBitcoin token-sale API (`src/server.js`).

The repository ships two near-duplicate Express servers over MongoDB
("variant 1" and "variant 2" below, in file order).  The ledger is the
`tx` collection; we model it as a `List Tx` in insertion order.  JS
numbers are modelled as `Int`, timestamps (`createdAt`, assigned by
mongoose `timestamps: true`) as `Int` milliseconds.  MongoDB aggregation
pipelines are translated stage by stage into list functions.
-/

namespace BabyBitcoin

/-- One persisted purchase record (mongoose model `Tx` of `TxSchema`):
`address` (lowercased, trimmed by the schema), `tokens`, `usd`,
`network`, and the `createdAt` timestamp added by `timestamps: true`. -/
structure Tx where
  address : String
  tokens : Int
  usd : Int
  network : String
  createdAt : Int
deriving DecidableEq, Repr

/-- `$group: {_id: "$address", tokens: {$sum: "$tokens"}}` accumulator:
add `t` to the group keyed `a`, creating the group if absent. -/
def addTo : List (String × Int) → String → Int → List (String × Int)
  | [], a, t => [(a, t)]
  | (b, u) :: rest, a, t =>
      if b = a then (b, u + t) :: rest else (b, u) :: addTo rest a t

/-- The `/balances` aggregation pipeline (identical in both variants):
group the whole collection by `address`, summing `tokens`. -/
def computeBalances : List Tx → List (String × Int)
  | [] => []
  | r :: rs => addTo (computeBalances rs) r.address r.tokens

/-- Association-list lookup on the grouped balances. -/
def lookupBal (a : String) : List (String × Int) → Option Int
  | [] => none
  | (b, t) :: rest => if b = a then some t else lookupBal a rest

/-- Sum of `tokens` over the records whose address is `a`
(the specification-side description of a balance). -/
def sumTokensFor (rs : List Tx) (a : String) : Int :=
  ((rs.filter (fun r => r.address = a)).map (fun r => r.tokens)).sum

-- Helper lemmas about the grouping fold.

theorem lookupBal_addTo_self (m : List (String × Int)) (a : String) (t : Int) :
    lookupBal a (addTo m a t) = some ((lookupBal a m).getD 0 + t) := by
  induction m with
  | nil => simp [addTo, lookupBal]
  | cons p rest ih =>
      obtain ⟨b, u⟩ := p
      by_cases h : b = a
      · subst h
        simp [addTo, lookupBal]
      · simp [addTo, lookupBal, h, ih]

theorem lookupBal_addTo_ne (m : List (String × Int)) {a b : String} (t : Int)
    (h : b ≠ a) : lookupBal a (addTo m b t) = lookupBal a m := by
  induction m with
  | nil => simp [addTo, lookupBal, h]
  | cons p rest ih =>
      obtain ⟨c, u⟩ := p
      by_cases hc : c = b
      · subst hc
        simp [addTo, lookupBal, h]
      · by_cases ha : c = a
        · subst ha
          simp [addTo, lookupBal, hc]
        · simp [addTo, lookupBal, hc, ha, ih]

theorem lookupBal_computeBalances (rs : List Tx) (a : String) :
    lookupBal a (computeBalances rs) =
      if ∃ r ∈ rs, r.address = a then some (sumTokensFor rs a) else none := by
  induction rs with
  | nil => simp [computeBalances, lookupBal, sumTokensFor]
  | cons r rs ih =>
      by_cases h : r.address = a
      · rw [computeBalances, h, lookupBal_addTo_self, ih]
        by_cases hex : ∃ x ∈ rs, x.address = a
        · simp only [if_pos hex]
          have : ∃ x ∈ r :: rs, x.address = a := ⟨r, List.mem_cons_self r rs, h⟩
          simp only [if_pos this, Option.getD_some]
          simp [sumTokensFor, List.filter_cons, h, Int.add_comm]
        · simp only [if_neg hex]
          have : ∃ x ∈ r :: rs, x.address = a := ⟨r, List.mem_cons_self r rs, h⟩
          simp only [if_pos this, Option.getD_none]
          have hf : sumTokensFor rs a = 0 := by
            have : rs.filter (fun x => x.address = a) = [] := by
              rw [List.filter_eq_nil_iff]
              intro x hx
              simp only [decide_eq_true_eq]
              exact fun hxa => hex ⟨x, hx, hxa⟩
            simp [sumTokensFor, this]
          simp only [sumTokensFor] at hf
          simp [sumTokensFor, List.filter_cons, h, hf]
      · rw [computeBalances, lookupBal_addTo_ne _ _ h, ih]
        have hiff : (∃ x ∈ rs, x.address = a) ↔ (∃ x ∈ r :: rs, x.address = a) := by
          constructor
          · rintro ⟨x, hx, hxa⟩
            exact ⟨x, List.mem_cons_of_mem r hx, hxa⟩
          · rintro ⟨x, hx, hxa⟩
            rcases List.mem_cons.mp hx with hx | hx
            · exact absurd (hx ▸ hxa) h
            · exact ⟨x, hx, hxa⟩
        by_cases hex : ∃ x ∈ rs, x.address = a
        · simp only [if_pos hex, if_pos (hiff.mp hex)]
          simp [sumTokensFor, List.filter_cons, h]
        · simp only [if_neg hex, if_neg (fun hc => hex (hiff.mpr hc))]

/-- Records of the worked example in the spec (§8 scenario). -/
def exRecs : List Tx :=
  [⟨"0xa", 10, 5, "eth", 1⟩, ⟨"0xa", 5, 2, "eth", 2⟩, ⟨"0xb", 20, 8, "eth", 3⟩]

/-- C1: the `/balances` aggregation maps each address having at least one
record to the sum of `tokens` over its records, and has no entry for an
address with no record. -/
theorem balances_correct (rs : List Tx) (a : String) :
    lookupBal a (computeBalances rs) =
      if ∃ r ∈ rs, r.address = a then some (sumTokensFor rs a) else none :=
  lookupBal_computeBalances rs a

/-- Output of the `/stats` aggregation. -/
structure StatsOut where
  raised : Int
  tokens : Int
  buyers : Nat
deriving DecidableEq, Repr

/-- `$addToSet: "$address"`: the set of distinct addresses of the
records, built by inserting each address if not already present. -/
def addrSet : List Tx → List String
  | [] => []
  | r :: rs =>
      let s := addrSet rs
      if r.address ∈ s then s else r.address :: s

/-- The `/stats` aggregation (identical in both variants): one `$group`
over the whole collection with `_id: null`, summing `usd` into `raised`
and `tokens` into `tokens` and collecting `$addToSet: "$address"`,
whose `$size` becomes `buyers`.  On an empty collection the pipeline
yields no document, so the handler falls back to
`{raised: 0, tokens: 0, buyers: 0}` (`agg || {...}`). -/
def computeStats (rs : List Tx) : StatsOut :=
  match rs with
  | [] => ⟨0, 0, 0⟩
  | _ =>
      ⟨(rs.map (fun r => r.usd)).sum, (rs.map (fun r => r.tokens)).sum,
        (addrSet rs).length⟩

theorem mem_addrSet (a : String) (rs : List Tx) :
    a ∈ addrSet rs ↔ a ∈ rs.map (fun r => r.address) := by
  induction rs with
  | nil => simp [addrSet]
  | cons r rs ih =>
      by_cases h : r.address ∈ addrSet rs
      · simp only [addrSet, if_pos h, List.map_cons, List.mem_cons]
        constructor
        · intro ha
          exact Or.inr (ih.mp ha)
        · rintro (ha | ha)
          · exact ha ▸ h
          · exact ih.mpr ha
      · simp [addrSet, if_neg h, ih]

theorem length_addrSet (rs : List Tx) :
    (addrSet rs).length = ((rs.map (fun r => r.address)).dedup).length := by
  induction rs with
  | nil => simp [addrSet]
  | cons r rs ih =>
      by_cases h : r.address ∈ addrSet rs
      · have hd : r.address ∈ rs.map (fun r => r.address) :=
          (mem_addrSet _ _).mp h
        simp only [addrSet, if_pos h, List.map_cons,
          List.dedup_cons_of_mem hd]
        exact ih
      · have hd : r.address ∉ rs.map (fun r => r.address) :=
          fun hc => h ((mem_addrSet _ _).mpr hc)
        simp only [addrSet, if_neg h, List.map_cons,
          List.dedup_cons_of_not_mem hd, List.length_cons]
        exact congrArg (· + 1) ih

/-- C2: `/stats` returns `raised` = sum of `usd`, `tokens` = sum of
`tokens`, `buyers` = number of distinct addresses, and on an empty
ledger returns `{raised: 0, tokens: 0, buyers: 0}` rather than an
absent result. -/
theorem stats_correct :
    (∀ rs : List Tx,
        (computeStats rs).raised = (rs.map (fun r => r.usd)).sum ∧
        (computeStats rs).tokens = (rs.map (fun r => r.tokens)).sum ∧
        (computeStats rs).buyers =
          ((rs.map (fun r => r.address)).dedup).length) ∧
    computeStats [] = ⟨0, 0, 0⟩ := by
  refine ⟨fun rs => ?_, rfl⟩
  cases rs with
  | nil => simp [computeStats]
  | cons r rs => exact ⟨rfl, rfl, length_addrSet _⟩

/-- `$sort: {tokens: -1}` ordering on grouped entries: descending by
token total. -/
def tokensGe (p q : String × Int) : Prop := q.2 ≤ p.2

instance : DecidableRel tokensGe := fun p q => Int.decLe q.2 p.2

instance : IsTotal (String × Int) tokensGe := ⟨fun p q => le_total q.2 p.2⟩

instance : IsTrans (String × Int) tokensGe :=
  ⟨fun _ _ _ hab hbc => le_trans hbc hab⟩

/-- `$sort: {tokens: -1}` followed by `$limit: 10` on the grouped
balances (tie order among equal totals is implementation-defined; we fix
a stable sort). -/
def topTen (bal : List (String × Int)) : List (String × Int) :=
  (List.insertionSort tokensGe bal).take 10

/-- Variant 1 `/leaderboard` handler: groups and sorts the whole
collection; this variant never reads a `range` query parameter, so the
pipeline is the same whatever `range` the client sends. -/
def computeLeaderboardV1 (rs : List Tx) (_range : String) : List (String × Int) :=
  topTen (computeBalances rs)

/-- Variant 2 daily restriction: `$match: {createdAt: {$gte: from}}`
with `from = Date.now() − 24*60*60*1000`. -/
def dailyFilter (rs : List Tx) (now : Int) : List Tx :=
  rs.filter (fun r => now - 86400000 ≤ r.createdAt)

/-- Variant 2 `/leaderboard` handler: `range = req.query.range || 'all'`;
when `range === 'daily'` the pipeline first `$match`es on
`createdAt ≥ now − 24h`, otherwise the match stage is `{}`. -/
def computeLeaderboardV2 (rs : List Tx) (range : String) (now : Int) :
    List (String × Int) :=
  topTen (computeBalances (if range = "daily" then dailyFilter rs now else rs))

theorem topTen_length (l : List (String × Int)) :
    (topTen l).length = min 10 l.length := by
  simp [topTen]

theorem topTen_sorted (l : List (String × Int)) :
    List.Sorted tokensGe (topTen l) :=
  List.Pairwise.sublist (List.take_sublist 10 _)
    (List.sorted_insertionSort tokensGe l)

theorem topTen_subset {l : List (String × Int)} {p : String × Int}
    (h : p ∈ topTen l) : p ∈ l :=
  (List.perm_insertionSort tokensGe l).mem_iff.mp (List.take_subset _ _ h)

theorem topTen_max {l : List (String × Int)} {p q : String × Int}
    (hp : p ∈ l) (hnp : p ∉ topTen l) (hq : q ∈ topTen l) : p.2 ≤ q.2 := by
  have hs : List.Sorted tokensGe (List.insertionSort tokensGe l) :=
    List.sorted_insertionSort tokensGe l
  have hsplit :
      List.insertionSort tokensGe l =
        (List.insertionSort tokensGe l).take 10 ++
          (List.insertionSort tokensGe l).drop 10 :=
    (List.take_append_drop 10 _).symm
  have hmem : p ∈ List.insertionSort tokensGe l :=
    (List.perm_insertionSort tokensGe l).mem_iff.mpr hp
  have hpd : p ∈ (List.insertionSort tokensGe l).drop 10 := by
    rcases List.mem_append.mp (hsplit ▸ hmem) with h | h
    · exact absurd h hnp
    · exact h
  have hrel :
      ∀ x ∈ (List.insertionSort tokensGe l).take 10,
        ∀ y ∈ (List.insertionSort tokensGe l).drop 10, tokensGe x y := by
    have := hsplit ▸ hs
    exact (List.pairwise_append.mp this).2.2
  exact hrel q hq p hpd

/-- C3: the all-time leaderboard has `min 10 (number of balance
entries)` entries (so at most 10), is sorted descending by tokens, its
entries come from the balances aggregation, and every balance entry left
out has a total at most that of every included entry; both variants
compute it identically for range `all`. -/
theorem leaderboard_all_correct (rs : List Tx) (range : String) (now : Int) :
    computeLeaderboardV1 rs range = topTen (computeBalances rs) ∧
    computeLeaderboardV2 rs "all" now = topTen (computeBalances rs) ∧
    (topTen (computeBalances rs)).length = min 10 (computeBalances rs).length ∧
    List.Sorted tokensGe (topTen (computeBalances rs)) ∧
    (∀ p ∈ topTen (computeBalances rs), p ∈ computeBalances rs) ∧
    (∀ p ∈ computeBalances rs, p ∉ topTen (computeBalances rs) →
      ∀ q ∈ topTen (computeBalances rs), p.2 ≤ q.2) := by
  refine ⟨rfl, ?_, topTen_length _, topTen_sorted _,
    fun p hp => topTen_subset hp, fun p hp hnp q hq => topTen_max hp hnp hq⟩
  have : ("all" : String) ≠ "daily" := by decide
  simp [computeLeaderboardV2, this]

/-- Eleven single-purchase addresses with distinct totals, used to
exercise the leaderboard cutoff. -/
def exMany : List Tx :=
  [⟨"a", 11, 0, "eth", 1⟩, ⟨"b", 10, 0, "eth", 2⟩, ⟨"c", 9, 0, "eth", 3⟩,
   ⟨"d", 8, 0, "eth", 4⟩, ⟨"e", 7, 0, "eth", 5⟩, ⟨"f", 6, 0, "eth", 6⟩,
   ⟨"g", 5, 0, "eth", 7⟩, ⟨"h", 4, 0, "eth", 8⟩, ⟨"i", 3, 0, "eth", 9⟩,
   ⟨"j", 2, 0, "eth", 10⟩, ⟨"k", 1, 0, "eth", 11⟩]

/-- Witness for C3 at a concrete ledger: the excluded eleventh address
has a total no larger than an included one. -/
theorem leaderboard_all_correct_witness :
    (("k", (1 : Int)) : String × Int).2 ≤ (("j", (2 : Int)) : String × Int).2 :=
  (leaderboard_all_correct exMany "all" 0).2.2.2.2.2 ("k", 1) (by decide)
    (by decide) ("j", 2) (by decide)

/-- A record ten days old, and a query time ten days after epoch. -/
def exOld : Tx := ⟨"0xa", 1, 1, "eth", 0⟩

def exNow : Int := 864000000

/-- C4 counterexample: variant 1's `/leaderboard` ignores the `range`
parameter, so with `range = "daily"` it still counts a record far older
than 24 hours (variant 2 correctly drops it). -/
theorem leaderboard_daily_claim_false :
    exOld.createdAt < exNow - 86400000 ∧
    computeLeaderboardV1 [exOld] "daily" = [("0xa", 1)] ∧
    computeLeaderboardV2 [exOld] "daily" exNow = [] := by
  decide

/-- C4 (amended): in variant 2 a record older than 24 hours does not
affect the daily leaderboard, whose pipeline groups only the `$match`ed
window; variant 1 ignores the range parameter and always aggregates the
whole ledger. -/
theorem leaderboard_daily_amended :
    (∀ (r : Tx) (rs : List Tx) (now : Int),
        r.createdAt < now - 86400000 →
        computeLeaderboardV2 (r :: rs) "daily" now =
          computeLeaderboardV2 rs "daily" now) ∧
    (∀ (rs : List Tx) (now : Int),
        computeLeaderboardV2 rs "daily" now =
          topTen (computeBalances (dailyFilter rs now))) ∧
    (∀ (rs : List Tx) (range : String),
        computeLeaderboardV1 rs range = topTen (computeBalances rs)) := by
  refine ⟨fun r rs now h => ?_, fun rs now => by simp [computeLeaderboardV2],
    fun rs range => rfl⟩
  have hf : dailyFilter (r :: rs) now = dailyFilter rs now := by
    simp only [dailyFilter, List.filter_cons]
    have h2 : ¬ (now - 86400000 ≤ r.createdAt) := by omega
    simp [h2]
  simp [computeLeaderboardV2, hf]

/-- Witness for the amended C4 at a concrete old record. -/
theorem leaderboard_daily_amended_witness :
    computeLeaderboardV2 [exOld] "daily" exNow =
      computeLeaderboardV2 [] "daily" exNow :=
  leaderboard_daily_amended.1 exOld [] exNow (by decide)

/-- Value of a decimal digit string. -/
def digitsVal (cs : List Char) : Nat :=
  cs.foldl (fun a c => 10 * a + (c.toNat - 48)) 0

/-- ASCII whitespace, the fragment of JS whitespace we model. -/
def isSpaceChar (c : Char) : Bool :=
  c == ' ' || c == '\t' || c == '\n' || c == '\r'

/-- JavaScript `parseInt(s, 10)`: skip leading whitespace, accept an
optional sign, read the longest leading run of decimal digits and ignore
any trailing junk; `none` models `NaN` (no digits at all). -/
def parseIntJS (s : String) : Option Int :=
  match s.data.dropWhile isSpaceChar with
  | [] => none
  | '-' :: rest =>
      let ds := rest.takeWhile Char.isDigit
      if ds.isEmpty then none else some (-(digitsVal ds : Int))
  | '+' :: rest =>
      let ds := rest.takeWhile Char.isDigit
      if ds.isEmpty then none else some ((digitsVal ds : Int))
  | cs =>
      let ds := cs.takeWhile Char.isDigit
      if ds.isEmpty then none else some ((digitsVal ds : Int))

/-- `req.query.limit || '200'`: the default kicks in when the parameter
is absent or the empty string (both falsy). -/
def jsOrDefault (q : Option String) : String :=
  match q with
  | none => "200"
  | some s => if s = "" then "200" else s

/-- `Math.min(parseInt(req.query.limit || '200', 10), 1000)`, identical
in both variants; `none` models `NaN` (`Math.min(NaN, 1000)` is `NaN`). -/
def computeLimit (q : Option String) : Option Int :=
  (parseIntJS (jsOrDefault q)).map (fun n => min n 1000)

/-- `.sort({createdAt: -1})` ordering: newest first. -/
def createdGe (a b : Tx) : Prop := b.createdAt ≤ a.createdAt

instance : DecidableRel createdGe := fun a b => Int.decLe b.createdAt a.createdAt

instance : IsTotal Tx createdGe := ⟨fun a b => le_total b.createdAt a.createdAt⟩

instance : IsTrans Tx createdGe := ⟨fun _ _ _ hab hbc => le_trans hbc hab⟩

/-- `/transactions` retrieval (identical in both variants):
`Tx.find().sort({createdAt: -1}).limit(n)` for a nonnegative computed
limit; MongoDB's `limit(0)` means no limit, so the whole sorted
collection comes back at `n = 0`. -/
def listRecent (rs : List Tx) (n : Nat) : List Tx :=
  if n = 0 then List.insertionSort createdGe rs
  else (List.insertionSort createdGe rs).take n

/-- C5 counterexample: `?limit=0` is a reachable request whose computed
limit is `0`, where MongoDB applies no limit: on the worked ledger all
three records come back, more than `min(0, 1000) = 0`. -/
theorem transactions_limit_zero_claim_false :
    computeLimit (some "0") = some 0 ∧
    (listRecent exRecs 0).length = 3 ∧
    ¬ ((listRecent exRecs 0).length ≤ 0) := by
  decide

/-- C5 (amended): for a nonzero computed limit `n` (which is
`min requested 1000`), `/transactions` returns at most `n` records,
never more than exist, sorted newest first; an absent `limit` parameter
yields the default `200`, and a parsed requested value `m` is capped to
`min m 1000`; but at computed limit `0` MongoDB applies no limit and
every record is returned, newest first. -/
theorem transactions_correct_amended :
    (∀ (rs : List Tx) (q : Option String) (n : Nat),
        computeLimit q = some (Int.ofNat n) → n ≠ 0 →
        (listRecent rs n).length ≤ n ∧
        (listRecent rs n).length ≤ rs.length ∧
        List.Sorted createdGe (listRecent rs n)) ∧
    (∀ rs : List Tx,
        (listRecent rs 0).length = rs.length ∧
        List.Sorted createdGe (listRecent rs 0)) ∧
    computeLimit none = some 200 ∧
    (∀ (q : Option String) (m : Int),
        parseIntJS (jsOrDefault q) = some m →
        computeLimit q = some (min m 1000)) := by
  refine ⟨fun rs q n _ hn => ⟨?_, ?_, ?_⟩, fun rs => ⟨?_, ?_⟩, by decide,
    fun q m h => ?_⟩
  · simp [listRecent, hn]
  · simp [listRecent, hn]
  · simp only [listRecent, if_neg hn]
    exact List.Pairwise.sublist (List.take_sublist n _)
      (List.sorted_insertionSort createdGe rs)
  · simp [listRecent]
  · simp only [listRecent, if_pos rfl]
    exact List.sorted_insertionSort createdGe rs
  · simp [computeLimit, h]

/-- Witness for the amended C5 at a concrete ledger, an absent limit
parameter and a small explicit one. -/
theorem transactions_correct_amended_witness :
    (listRecent exRecs 200).length ≤ 200 ∧
    computeLimit (some "5") = some (min 5 1000) :=
  ⟨(transactions_correct_amended.1 exRecs none 200 (by decide) (by decide)).1,
    transactions_correct_amended.2.2.2 (some "5") 5 (by decide)⟩

/-- C10: the computed `/transactions` limit can be `NaN` (modelled
`none`) for a non-numeric query value, a negative requested value passes
through unchanged, and the 1000 cap is only an upper bound. -/
theorem limit_not_nonneg :
    computeLimit (some "abc") = none ∧
    computeLimit (some "-5") = some (-5) ∧
    (∀ (q : Option String) (n : Int), computeLimit q = some n → n ≤ 1000) := by
  refine ⟨by decide, by decide, fun q n h => ?_⟩
  simp only [computeLimit, Option.map_eq_some'] at h
  obtain ⟨m, _, hm⟩ := h
  exact hm ▸ min_le_right m 1000

/-- Witness for C10's cap clause at a concrete query value. -/
theorem limit_not_nonneg_witness : (-5 : Int) ≤ 1000 :=
  limit_not_nonneg.2.2 (some "-5") (-5) (by decide)

/-- A JSON-ish JavaScript value as it arrives in a request body field. -/
inductive JVal where
  | jstr (s : String)
  | jnum (n : Int)
  | jbool (b : Bool)
  | jnull
deriving DecidableEq, Repr

/-- JavaScript truthiness of a body field (`undefined`, `null`, `""`,
`0` and `false` are falsy). -/
def truthy : JVal → Bool
  | .jstr s => !(s == "")
  | .jnum n => !(n == 0)
  | .jbool b => b
  | .jnull => false

def truthyOpt : Option JVal → Bool
  | none => false
  | some v => truthy v

/-- `typeof x === 'number'`. -/
def isNum : Option JVal → Bool
  | some (.jnum _) => true
  | _ => false

/-- JavaScript `String(x)` coercion. -/
def jsToString : JVal → String
  | .jstr s => s
  | .jnum n => toString n
  | .jbool b => if b then "true" else "false"
  | .jnull => "null"

def jvalOf : Option JVal → JVal
  | some v => v
  | none => .jnull

def numOf : Option JVal → Int
  | some (.jnum n) => n
  | _ => 0

/-- The parsed `POST /buy` request body `{address, tokens, usd,
network?}`; `none` models an absent field. -/
structure Body where
  address : Option JVal
  tokens : Option JVal
  usd : Option JVal
  network : Option JVal
deriving DecidableEq, Repr

/-- List-level trim of leading and trailing whitespace. -/
def trimChars (cs : List Char) : List Char :=
  ((cs.dropWhile isSpaceChar).reverse.dropWhile isSpaceChar).reverse

/-- The address normalization applied on the write path: the route does
`String(address).toLowerCase()` and the schema's `lowercase: true,
trim: true` setters lowercase (a no-op by then) and trim the value. -/
def normalizeAddr (s : String) : String :=
  String.mk (trimChars (s.data.map Char.toLower))

/-- `network || 'eth'` followed by the schema's string cast. -/
def networkString (v : Option JVal) : String :=
  match v with
  | some w => if truthy w then jsToString w else "eth"
  | none => "eth"

/-- The schema's `enum: ['eth', 'bsc', 'other']` check. -/
def validNetwork (s : String) : Bool :=
  s == "eth" || s == "bsc" || s == "other"

/-- The document `Tx.create` builds from a body on the success path:
normalized address, the numeric `tokens` and `usd`, the defaulted
network, and `createdAt = now` from `timestamps: true`. -/
def storedTx (b : Body) (now : Int) : Tx :=
  ⟨normalizeAddr (jsToString (jvalOf b.address)), numOf b.tokens,
    numOf b.usd, networkString b.network, now⟩

/-- The `POST /buy` handler, returning (HTTP status, new store).  The
route answers 400 on `!address || typeof tokens !== 'number' || typeof
usd !== 'number'`; otherwise `Tx.create` validates the schema
(`required` on the trimmed address, `min: 0` on tokens and usd, the
network enum) — a failure there is caught and surfaced as 500 (variant 1
by its `catch`, variant 2 via `next(e)` and the error middleware), with
nothing stored; on success the record is appended and 201 returned. -/
def postBuy (store : List Tx) (b : Body) (now : Int) : Nat × List Tx :=
  if truthyOpt b.address = false ∨ isNum b.tokens = false ∨
      isNum b.usd = false then
    (400, store)
  else if numOf b.tokens < 0 ∨ numOf b.usd < 0 ∨
      normalizeAddr (jsToString (jvalOf b.address)) = "" ∨
      validNetwork (networkString b.network) = false then
    (500, store)
  else
    (201, store ++ [storedTx b now])

/-- C6: a body with the address field absent, or a non-numeric `tokens`
or `usd`, gets a 400 and leaves the store unchanged. -/
theorem buy_rejects_invalid (store : List Tx) (b : Body) (now : Int)
    (h : b.address = none ∨ isNum b.tokens = false ∨ isNum b.usd = false) :
    postBuy store b now = (400, store) := by
  have hc : truthyOpt b.address = false ∨ isNum b.tokens = false ∨
      isNum b.usd = false := by
    rcases h with h | h | h
    · exact Or.inl (by rw [h]; rfl)
    · exact Or.inr (Or.inl h)
    · exact Or.inr (Or.inr h)
  unfold postBuy
  rw [if_pos hc]

/-- Witness for C6: the spec's `tokens: "ten"` example body. -/
theorem buy_rejects_invalid_witness :
    postBuy [] ⟨some (.jstr "0xab"), some (.jstr "ten"),
      some (.jnum 5), none⟩ 7 = (400, []) :=
  buy_rejects_invalid [] _ 7 (Or.inr (Or.inl rfl))

theorem postBuy_201 (store : List Tx) (b : Body) (now : Int)
    (h : (postBuy store b now).1 = 201) :
    (postBuy store b now).2 = store ++ [storedTx b now] := by
  unfold postBuy at h ⊢
  split_ifs at h ⊢ with h1 h2
  · exact absurd h (by simp)
  · exact absurd h (by simp)
  · rfl

/-- C7: a successful buy appends exactly one record whose address is the
lowercased, trimmed form of the submitted address; hence two successful
buys whose submitted addresses normalize alike yield a single balances
entry (with the summed tokens) and a single distinct buyer. -/
theorem buy_normalizes_address :
    (∀ (store : List Tx) (b : Body) (now : Int),
        (postBuy store b now).1 = 201 →
        (postBuy store b now).2 = store ++ [storedTx b now] ∧
        (storedTx b now).address =
          normalizeAddr (jsToString (jvalOf b.address))) ∧
    (∀ (b1 b2 : Body) (now1 now2 : Int),
        normalizeAddr (jsToString (jvalOf b1.address)) =
          normalizeAddr (jsToString (jvalOf b2.address)) →
        (postBuy [] b1 now1).1 = 201 →
        (postBuy (postBuy [] b1 now1).2 b2 now2).1 = 201 →
        computeBalances (postBuy (postBuy [] b1 now1).2 b2 now2).2 =
          [(normalizeAddr (jsToString (jvalOf b1.address)),
            numOf b2.tokens + numOf b1.tokens)] ∧
        addrSet (postBuy (postBuy [] b1 now1).2 b2 now2).2 =
          [normalizeAddr (jsToString (jvalOf b1.address))]) := by
  constructor
  · exact fun store b now h => ⟨postBuy_201 store b now h, rfl⟩
  · intro b1 b2 now1 now2 haddr h1 h2
    have e2 : (postBuy (postBuy [] b1 now1).2 b2 now2).2 =
        (postBuy [] b1 now1).2 ++ [storedTx b2 now2] :=
      postBuy_201 _ b2 now2 h2
    have e1 : (postBuy [] b1 now1).2 = [storedTx b1 now1] := by
      simpa using postBuy_201 [] b1 now1 h1
    rw [e2, e1]
    have ha1 : (storedTx b1 now1).address =
        normalizeAddr (jsToString (jvalOf b1.address)) := rfl
    have ha2 : (storedTx b2 now2).address =
        normalizeAddr (jsToString (jvalOf b1.address)) := haddr.symm
    have ht1 : (storedTx b1 now1).tokens = numOf b1.tokens := rfl
    have ht2 : (storedTx b2 now2).tokens = numOf b2.tokens := rfl
    constructor
    · show computeBalances [storedTx b1 now1, storedTx b2 now2] = _
      simp [computeBalances, addTo, ha1, ha2, ht1, ht2]
    · show addrSet [storedTx b1 now1, storedTx b2 now2] = _
      simp [addrSet, ha1, ha2]

/-- A buy body with an uppercase, whitespace-padded address, and a
second one with the already-normal form of the same address. -/
def exBody1 : Body :=
  ⟨some (.jstr "0xAB "), some (.jnum 10), some (.jnum 5), none⟩

def exBody2 : Body :=
  ⟨some (.jstr "0xab"), some (.jnum 5), some (.jnum 2), none⟩

/-- Witness for C7: the two case-variant buys collapse to one balances
entry holding both token amounts. -/
theorem buy_normalizes_address_witness :
    computeBalances (postBuy (postBuy [] exBody1 3).2 exBody2 4).2 =
      [(normalizeAddr (jsToString (jvalOf exBody1.address)),
        numOf exBody2.tokens + numOf exBody1.tokens)] :=
  (buy_normalizes_address.2 exBody1 exBody2 3 4 (by decide) (by decide)
    (by decide)).1

/-- C9: records reachable through `POST /buy` always carry nonnegative
`tokens` and `usd`; a body passing the route's type-only check but
carrying a negative number is stopped by the schema's `min: 0` and
yields a 500 (not 400) with the store unchanged. -/
theorem persisted_nonneg :
    (∀ (store : List Tx) (b : Body) (now : Int),
        (∀ r ∈ store, 0 ≤ r.tokens ∧ 0 ≤ r.usd) →
        ∀ r ∈ (postBuy store b now).2, 0 ≤ r.tokens ∧ 0 ≤ r.usd) ∧
    (∀ (store : List Tx) (av : JVal) (t u : Int) (nv : Option JVal)
        (now : Int), truthy av = true → t < 0 ∨ u < 0 →
        postBuy store ⟨some av, some (.jnum t), some (.jnum u), nv⟩ now =
          (500, store)) := by
  constructor
  · intro store b now hstore r hr
    unfold postBuy at hr
    split_ifs at hr with h1 h2
    · exact hstore r hr
    · exact hstore r hr
    · rcases List.mem_append.mp hr with h | h
      · exact hstore r h
      · push_neg at h2
        rw [List.mem_singleton.mp h]
        exact ⟨h2.1, h2.2.1⟩
  · intro store av t u nv now htr hneg
    unfold postBuy
    split_ifs with hA hB
    · exact absurd hA (by simp [truthyOpt, isNum, htr])
    · rfl
    · simp only [numOf] at hB
      push_neg at hB
      rcases hneg with h | h
      · exact absurd h (not_lt.mpr hB.1)
      · exact absurd h (not_lt.mpr hB.2.1)

/-- Witness for C9: a negative `tokens` value is typed as a number, so
it passes the 400 check and dies at the schema with a 500. -/
theorem persisted_nonneg_witness :
    postBuy [] ⟨some (.jstr "0xab"), some (.jnum (-1)), some (.jnum 1),
      none⟩ 5 = (500, []) :=
  persisted_nonneg.2 [] (.jstr "0xab") (-1) 1 none 5 (by decide)
    (Or.inl (by decide))

/-- A JSON document as serialized in a response body. -/
inductive JValue where
  | jnum (n : Int)
  | jstr (s : String)
  | jbool (b : Bool)
  | jarr (l : List JValue)
  | jobj (l : List (String × JValue))

/-- Top-level keys of a JSON object (empty for non-objects). -/
def objKeys : JValue → List String
  | .jobj l => l.map Prod.fst
  | _ => []

/-- Variant 1 `/balances` response body: the bare `{address: tokens}`
mapping built by `out[r.address] = r.tokens`. -/
def balancesBodyV1 (rs : List Tx) : JValue :=
  JValue.jobj ((computeBalances rs).map (fun p => (p.1, JValue.jnum p.2)))

/-- Variant 2 `/balances` response body: the same mapping wrapped in the
`{ok: true, data: ...}` envelope. -/
def balancesBodyV2 (rs : List Tx) : JValue :=
  JValue.jobj [("ok", JValue.jbool true), ("data", balancesBodyV1 rs)]

theorem mem_map_fst_iff_lookupBal (l : List (String × Int)) (a : String) :
    a ∈ l.map Prod.fst ↔ lookupBal a l ≠ none := by
  induction l with
  | nil => simp [lookupBal]
  | cons p rest ih =>
      obtain ⟨b, t⟩ := p
      by_cases h : b = a
      · subst h
        simp [lookupBal]
      · simp [lookupBal, h, Ne.symm h, ih]

/-- C8 counterexample: on the spec's worked ledger, variant 2's
`/balances` body has top-level keys `ok` and `data`, not the addresses,
so it is not the bare mapping variant 1 returns. -/
theorem balances_body_claim_false :
    objKeys (balancesBodyV2 exRecs) = ["ok", "data"] ∧
    "0xa" ∉ objKeys (balancesBodyV2 exRecs) ∧
    objKeys (balancesBodyV1 exRecs) ≠ objKeys (balancesBodyV2 exRecs) := by
  decide

/-- C8 (amended): variant 1's `/balances` success body is exactly the
mapping whose top-level keys are precisely the addresses having at
least one record; variant 2 returns the same mapping wrapped in an
`{ok: true, data: ...}` envelope. -/
theorem balances_body_amended :
    (∀ (rs : List Tx) (a : String),
        a ∈ objKeys (balancesBodyV1 rs) ↔ ∃ r ∈ rs, r.address = a) ∧
    (∀ rs : List Tx,
        balancesBodyV1 rs =
          JValue.jobj
            ((computeBalances rs).map (fun p => (p.1, JValue.jnum p.2)))) ∧
    (∀ rs : List Tx,
        balancesBodyV2 rs =
          JValue.jobj [("ok", JValue.jbool true), ("data", balancesBodyV1 rs)]) := by
  refine ⟨fun rs a => ?_, fun rs => rfl, fun rs => rfl⟩
  have hk : objKeys (balancesBodyV1 rs) = (computeBalances rs).map Prod.fst := by
    simp [balancesBodyV1, objKeys]
  rw [hk, mem_map_fst_iff_lookupBal, lookupBal_computeBalances]
  by_cases hex : ∃ r ∈ rs, r.address = a
  · simp [hex]
  · simp [hex]

/-- Witness for the amended C8 at the worked ledger. -/
theorem balances_body_amended_witness :
    "0xa" ∈ objKeys (balancesBodyV1 exRecs) :=
  (balances_body_amended.1 exRecs "0xa").mpr (by decide)

end BabyBitcoin
